import Mathlib

/-!
Verification of the CCScriptWriter decode/relocate core (CCScriptWriter.py).

Python strings are modelled as `List Char`, the ROM byte array as `Buf`
(a size plus a byte function; `Buf.get?` is in-bounds indexing, with an
out-of-range access — an uncaught IndexError in the source — modelled as
`none`).  Uncaught exceptions (KeyError on a table miss, UnboundLocalError
in FindClosest, ValueError from `int(_, 16)`) are modelled as `none` as
well.  Negative Python indices (which wrap around) never occur on the
paths the claims exercise and are modelled as aborts, with a comment at
each spot.  Loops whose bound is data-dependent take explicit fuel.
-/

namespace CCSW

/-- Python 2 `\w` (no re.UNICODE): ASCII letters, digits, underscore. -/
def isWordChar (c : Char) : Bool :=
  (97 ≤ c.toNat && c.toNat ≤ 122) || (65 ≤ c.toNat && c.toNat ≤ 90) ||
  (48 ≤ c.toNat && c.toNat ≤ 57) || c.toNat == 95

/-- The uppercase hex digit for a value `d < 16`. -/
def hexDigitChar (d : Nat) : Char :=
  if d < 10 then Char.ofNat (48 + d) else Char.ofNat (55 + d)

/-- Value of one hex digit, upper or lower case; `none` on any other
    character (Python `int(_, 16)` raises ValueError). -/
def hexCharVal (c : Char) : Option Nat :=
  if 48 ≤ c.toNat ∧ c.toNat ≤ 57 then some (c.toNat - 48)
  else if 65 ≤ c.toNat ∧ c.toNat ≤ 70 then some (c.toNat - 55)
  else if 97 ≤ c.toNat ∧ c.toNat ≤ 102 then some (c.toNat - 87)
  else none

/-- Little-endian hex digits of `n`, with fuel (empty for `n = 0`). -/
def toHexAux : Nat → Nat → List Char
  | 0, _ => []
  | f + 1, n => if n = 0 then [] else hexDigitChar (n % 16) :: toHexAux f (n / 16)

/-- Uppercase hex rendering of `n` with no `0x` and no leading zeros; empty
    for `0` — exactly Python's `hex(n).lstrip("0x").upper()` for `n ≥ 0`
    (`lstrip` strips the leading `0`, `x` characters, which for `hex`
    output removes exactly the `0x` prefix, and turns `"0x0"` into `""`). -/
def toHexUpper (n : Nat) : List Char := (toHexAux n n).reverse

def parseHexAux : List Char → Nat → Option Nat
  | [], a => some a
  | c :: cs, a =>
    match hexCharVal c with
    | none => none
    | some d => parseHexAux cs (16 * a + d)

/-- Python `int(s, 16)` on a string of bare hex digits: `none` for the
    empty string or any non-hex-digit character. -/
def parseHex (s : List Char) : Option Nat :=
  if s = [] then none else parseHexAux s 0

/-- CCScriptWriter.FormatHex: `hex(n).lstrip("0x").upper()`, padded on the
    left to at least two characters. -/
def FormatHex (n : Nat) : List Char :=
  let h := toHexUpper n
  if h = [] then ['0', '0']
  else if h.length = 1 then '0' :: h
  else h

/-- Drop leading spaces (the only whitespace that can occur in the strings
    the source strips). -/
def dropSpaces : List Char → List Char
  | [] => []
  | c :: cs => if c = ' ' then dropSpaces cs else c :: cs

/-- Python `str.strip()` restricted to the space character. -/
def stripSp (s : List Char) : List Char :=
  ((dropSpaces ((dropSpaces s).reverse)).reverse)

def splitWsAux : List Char → List Char → List (List Char)
  | [], acc => if acc = [] then [] else [acc.reverse]
  | c :: cs, acc =>
    if c = ' ' then
      (if acc = [] then splitWsAux cs [] else acc.reverse :: splitWsAux cs [])
    else splitWsAux cs (c :: acc)

/-- Python `str.split()` (split on runs of whitespace, no empty parts),
    restricted to the space character. -/
def splitWs (s : List Char) : List (List Char) := splitWsAux s []

/-- Python `" ".join(ws)`. -/
def joinSpace : List (List Char) → List Char
  | [] => []
  | [w] => w
  | w :: ws => w ++ ' ' :: joinSpace ws

/-- CCScriptWriter.FromSNES: an 8-`'0'` string maps to 0; otherwise split
    into byte pairs, reverse them, parse as hex and subtract the 0xC00000
    bank base. -/
def FromSNES (s : List Char) : Option Int :=
  if s.count '0' = 8 then some 0
  else (parseHex ((splitWs (stripSp s)).reverse.flatten)).map
    (fun v => (v : Int) - 0xC00000)

/-- Python `"{0:0>8}".format(h)`: left-pad with `'0'` to width 8 (longer
    strings pass through). -/
def padTo8 (l : List Char) : List Char := List.replicate (8 - l.length) '0' ++ l

/-- `re.findall("\w\w", s)` on a string of word characters: consecutive
    pairs, a trailing odd character dropped. -/
def chunkPairs : List Char → List (List Char)
  | a :: b :: rest => [a, b] :: chunkPairs rest
  | _ => []

/-- CCScriptWriter.ToSNES on a buffer offset.  (The source is only ever
    given nonnegative pointers on the paths modelled here; a negative
    argument in Python would render a garbage string.) -/
def ToSNES (x : Nat) : List Char :=
  if x = 0 then "00 00 00 00".data
  else joinSpace ((chunkPairs (padTo8 (toHexUpper (x + 0xC00000)))).reverse)

/-- The de-headered ROM byte buffer: a length plus random-access bytes. -/
structure Buf where
  size : Nat
  byte : Nat → Nat

/-- `self.data[i]`: `none` models an uncaught IndexError. -/
def Buf.get? (d : Buf) (i : Nat) : Option Nat :=
  if i < d.size then some (d.byte i) else none

def Buf.ofList (l : List Nat) : Buf := ⟨l.length, fun i => l.getD i 0⟩

/-- The CONTROL_CODES dictionary: `some n` for a fixed operand length,
    `none` for Python `None` (variable length, resolved by getLength).
    Only consulted for `c ≤ 0x30`, where the dictionary is total;
    keys 0x20–0x30 all map to 0. -/
def CONTROL_CODES (c : Nat) : Option Nat :=
  if c = 0x04 ∨ c = 0x05 ∨ c = 0x07 then some 2
  else if c = 0x06 then some 6
  else if c = 0x08 ∨ c = 0x0a then some 4
  else if c = 0x09 then none
  else if c = 0x0b ∨ c = 0x0c ∨ c = 0x0d ∨ c = 0x0e then some 1
  else if c = 0x10 ∨ c = 0x15 ∨ c = 0x16 ∨ c = 0x17 then some 1
  else if 0x18 ≤ c ∧ c ≤ 0x1f then none
  else some 0

def table1F (sub : Nat) : Option Nat :=
  if sub = 0x00 ∨ sub = 0x13 ∨ sub = 0x1B ∨ sub = 0x1C ∨ sub = 0x20 ∨
     sub = 0x23 ∨ sub = 0x71 ∨ sub = 0x81 ∨ sub = 0x83 ∨ sub = 0xE6 ∨
     sub = 0xE7 ∨ sub = 0xE9 ∨ sub = 0xEA ∨ sub = 0xEB ∨ sub = 0xEC ∨
     sub = 0xEE ∨ sub = 0xEF ∨ sub = 0xF4 then some 3
  else if sub = 0x01 ∨ sub = 0x02 ∨ sub = 0x04 ∨ sub = 0x07 ∨ sub = 0x11 ∨
     sub = 0x12 ∨ sub = 0x14 ∨ sub = 0x1D ∨ sub = 0x21 ∨ sub = 0x41 ∨
     sub = 0x52 ∨ sub = 0x60 ∨ sub = 0x62 ∨ sub = 0x67 ∨ sub = 0xD0 ∨
     sub = 0xD2 ∨ sub = 0xD3 ∨ sub = 0xE5 ∨ sub = 0xE8 then some 2
  else if sub = 0x03 ∨ sub = 0x05 ∨ sub = 0x06 ∨ sub = 0x30 ∨ sub = 0x31 ∨
     sub = 0x50 ∨ sub = 0x51 ∨ sub = 0x61 ∨ sub = 0x64 ∨ sub = 0x65 ∨
     sub = 0x68 ∨ sub = 0x69 ∨ sub = 0x90 ∨ sub = 0xA0 ∨ sub = 0xA1 ∨
     sub = 0xA2 ∨ sub = 0xB0 ∨ sub = 0xD1 ∨ sub = 0xED ∨ sub = 0xF0 then some 1
  else if sub = 0x15 ∨ sub = 0x17 then some 6
  else if sub = 0x16 ∨ sub = 0x1A ∨ sub = 0x1E ∨ sub = 0x1F ∨ sub = 0xE1 ∨
     sub = 0xE4 ∨ sub = 0xF3 then some 4
  else if sub = 0x18 ∨ sub = 0x19 then some 8
  else if sub = 0x66 then some 7
  else if sub = 0x63 ∨ sub = 0xF1 ∨ sub = 0xF2 then some 5
  else none

def table18 (sub : Nat) : Option Nat :=
  if sub = 0x00 ∨ sub = 0x02 ∨ sub = 0x04 ∨ sub = 0x06 ∨ sub = 0x0A then some 1
  else if sub = 0x01 ∨ sub = 0x03 then some 2
  else if sub = 0x05 ∨ sub = 0x0D then some 3
  else if sub = 0x07 then some 6
  else if sub = 0x08 ∨ sub = 0x09 then some 4
  else none

def table19 (sub : Nat) : Option Nat :=
  if sub = 0x02 ∨ sub = 0x04 ∨ sub = 0x14 ∨ sub = 0x1E ∨ sub = 0x1F ∨
     sub = 0x20 then some 1
  else if sub = 0x05 then some 4
  else if sub = 0x10 ∨ sub = 0x11 ∨ sub = 0x18 ∨ sub = 0x1A ∨ sub = 0x1B ∨
     sub = 0x21 ∨ sub = 0x25 ∨ sub = 0x26 ∨ sub = 0x27 ∨ sub = 0x28 then some 2
  else if sub = 0x16 ∨ sub = 0x19 ∨ sub = 0x1C ∨ sub = 0x1D then some 3
  else if sub = 0x22 then some 5
  else if sub = 0x23 ∨ sub = 0x24 then some 6
  else none

def table1A (sub : Nat) : Option Nat :=
  if sub = 0x00 ∨ sub = 0x01 then some 18
  else if sub = 0x04 ∨ sub = 0x07 ∨ sub = 0x08 ∨ sub = 0x09 ∨ sub = 0x0a ∨
     sub = 0x0B then some 1
  else if sub = 0x05 then some 3
  else if sub = 0x06 then some 2
  else none

def table1C (sub : Nat) : Option Nat :=
  if sub = 0x00 ∨ sub = 0x01 ∨ sub = 0x02 ∨ sub = 0x03 ∨ sub = 0x05 ∨
     sub = 0x06 ∨ sub = 0x07 ∨ sub = 0x08 ∨ sub = 0x0C ∨ sub = 0x11 ∨
     sub = 0x12 ∨ sub = 0x14 ∨ sub = 0x15 then some 2
  else if sub = 0x04 ∨ sub = 0x09 ∨ sub = 0x0D ∨ sub = 0x0E ∨ sub = 0x0F then some 1
  else if sub = 0x0A ∨ sub = 0x0B then some 5
  else if sub = 0x13 then some 3
  else none

def table1D (sub : Nat) : Option Nat :=
  if sub = 0x00 ∨ sub = 0x01 ∨ sub = 0x04 ∨ sub = 0x05 ∨ sub = 0x08 ∨
     sub = 0x09 ∨ sub = 0x0C ∨ sub = 0x0E ∨ sub = 0x0F ∨ sub = 0x10 ∨
     sub = 0x11 ∨ sub = 0x12 ∨ sub = 0x13 ∨ sub = 0x15 then some 3
  else if sub = 0x02 ∨ sub = 0x03 ∨ sub = 0x0A ∨ sub = 0x0B ∨ sub = 0x18 ∨
     sub = 0x19 ∨ sub = 0x21 ∨ sub = 0x23 ∨ sub = 0x24 then some 2
  else if sub = 0x06 ∨ sub = 0x07 ∨ sub = 0x14 ∨ sub = 0x17 then some 5
  else if sub = 0x0D then some 4
  else if sub = 0x20 ∨ sub = 0x22 then some 1
  else none

/-- The nested length table consulted for code `c` (the dictionary-backed
    cases of getLength; 0x1F's 0xC0 entry is handled separately there). -/
def subTable (c : Nat) : Nat → Option Nat :=
  if c = 0x18 then table18
  else if c = 0x19 then table19
  else if c = 0x1A then table1A
  else if c = 0x1C then table1C
  else if c = 0x1D then table1D
  else if c = 0x1F then table1F
  else fun _ => none

/-- CCScriptWriter.getLength: `i` is the offset of the sub-byte; the code
    byte is re-read at `i - 1`.  A missing dictionary key (KeyError) or an
    out-of-range read (IndexError) aborts the run: `none`. -/
def getLength (d : Buf) (i : Nat) : Option Nat :=
  match d.get? (i - 1), d.get? i with
  | some c, some sub =>
    if c = 0x09 then some (1 + sub * 4)
    else if c = 0x1B then (if sub = 0x02 ∨ sub = 0x03 then some 5 else some 1)
    else if c = 0x1E then (if sub = 0x09 then some 5 else some 3)
    else if c = 0x1F then
      (if sub = 0xC0 then
        match d.get? (i + 1) with
        | some np => some (2 + np * 4)
        | none => none
      else table1F sub)
    else if c = 0x18 then table18 sub
    else if c = 0x19 then table19 sub
    else if c = 0x1A then table1A sub
    else if c = 0x1C then table1C sub
    else if c = 0x1D then table1D sub
    else none
  | _, _ => none

/-- The operand bytes `data[i .. i+n)` of a control code (the inner
    `while i < codeEnd` loop); running past the buffer is an IndexError. -/
def readBytes (d : Buf) : Nat → Nat → Option (List Nat)
  | _, 0 => some []
  | i, n + 1 =>
    match d.get? i with
    | none => none
    | some b => (readBytes d (i + 1) n).map (b :: ·)

/-- `CONTROL_CODES[c]` if it is an int, else `getLength(i)` (`j` is the
    offset just after the code byte). -/
def codeLen (d : Buf) (c j : Nat) : Option Nat :=
  match CONTROL_CODES c with
  | some n => some n
  | none => getLength d j

/-- One token of getText's byte walk at offset `i`: the rendered token
    text, the next offset, and whether the token terminates the block
    (code 0x02 or 0x0A).  `chr(c - 0x30)` cannot raise for byte values
    (the source's ValueError handler is dead code in Python 2). -/
def step (d : Buf) (i : Nat) : Option (List Char × Nat × Bool) :=
  (d.get? i).bind (fun c =>
    if c ≤ 0x30 then
      (codeLen d c (i + 1)).bind (fun len =>
        (readBytes d (i + 1) len).map (fun ops =>
          ('[' :: (FormatHex c ++
             (ops.map (fun b => ' ' :: FormatHex b)).flatten ++ [']']),
           i + 1 + len, decide (c = 0x02 ∨ c = 0x0A))))
    else if c = 0x52 then some ("[52]".data, i + 1, false)
    else if c = 0x8c then some ("[8C]".data, i + 1, false)
    else some ([Char.ofNat (c - 0x30)], i + 1, false))

/-- The `if stop and stop == i` check: a truthy stop (neither None nor 0)
    equal to the current offset. -/
def stopHit (stop : Option Int) (i : Nat) : Bool :=
  match stop with
  | none => false
  | some s => (!(s == 0)) && s == (i : Int)

/-- The byte-walk loop of CCScriptWriter.getText (the pointer-pattern scan
    comes afterwards, see getText).  Fuel bounds the number of tokens; a
    buffer with no terminator walks off the end (IndexError, `none`). -/
def getTextLoop (d : Buf) (stop : Option Int) : Nat → Nat → Option (List Char × Nat)
  | 0, _ => none
  | f + 1, i =>
    if stopHit stop i then some ([], i)
    else
      (step d i).bind (fun tnt =>
        if tnt.2.2 then some (tnt.1, tnt.2.1)
        else (getTextLoop d stop f tnt.2.1).bind (fun sj =>
          some (tnt.1 ++ sj.1, sj.2)))

/-- The regular-expression constructs used by the PATTERNS list: literal
    characters, `\w`, a character class, concatenation, a capture group
    (0-based index), and greedy `+`. -/
inductive RE where
  | eps : RE
  | ch : Char → RE
  | wd : RE
  | cls : List Char → RE
  | seq : RE → RE → RE
  | grp : Nat → RE → RE
  | plus : RE → RE
deriving Repr

abbrev Caps := List (List Char)

/-- Backtracking matcher in continuation style (greedy `+`, exactly the
    Python `re` semantics for these constructs).  The structural fuel
    bounds the recursion depth: one unit per regex node entered along the
    active spine and one per `+` iteration (a repetition must consume
    input to continue); `tryMatch` supplies more than enough for the
    fixed PATTERNS. -/
def reM : Nat → RE → List Char → Caps →
    (List Char → Caps → Option (Caps × List Char)) → Option (Caps × List Char)
  | 0, _, _, _, _ => none
  | _ + 1, .eps, s, caps, k => k s caps
  | _ + 1, .ch c, s, caps, k =>
    match s with
    | [] => none
    | x :: rest => if x = c then k rest caps else none
  | _ + 1, .wd, s, caps, k =>
    match s with
    | [] => none
    | x :: rest => if isWordChar x then k rest caps else none
  | _ + 1, .cls l, s, caps, k =>
    match s with
    | [] => none
    | x :: rest => if x ∈ l then k rest caps else none
  | f + 1, .seq a b, s, caps, k =>
    reM f a s caps (fun s1 c1 => reM f b s1 c1 k)
  | f + 1, .grp n a, s, caps, k =>
    reM f a s caps (fun s1 c1 => k s1 (c1.set n (s.take (s.length - s1.length))))
  | f + 1, .plus a, s, caps, k =>
    reM f a s caps (fun s1 c1 =>
      if s1.length < s.length then
        match reM f (.plus a) s1 c1 k with
        | some r => some r
        | none => k s1 c1
      else k s1 c1)

/-- One attempted anchored match of `re` at the start of `s` with `n`
    capture groups, returning the captures and the unconsumed rest. -/
def tryMatch (re : RE) (n : Nat) (s : List Char) : Option (Caps × List Char) :=
  reM (s.length + 100) re s (List.replicate n []) (fun rest caps => some (caps, rest))

def findAllAux (re : RE) (n : Nat) : Nat → List Char → List Caps
  | 0, _ => []
  | f + 1, s =>
    match tryMatch re n s with
    | some (caps, rest) =>
      caps :: (if rest.length < s.length then findAllAux re n f rest
               else match s with
                    | [] => []
                    | _ :: t => findAllAux re n f t)
    | none =>
      match s with
      | [] => []
      | _ :: t => findAllAux re n f t

/-- Python `re.findall(pattern, s)` with capture groups: leftmost
    non-overlapping matches, scanning left to right. -/
def findAll (re : RE) (n : Nat) (s : List Char) : List Caps :=
  findAllAux re n (s.length + 1) s

def litStr (s : List Char) : RE := (s.map RE.ch).foldr RE.seq RE.eps

def reList (l : List RE) : RE := l.foldr RE.seq RE.eps

/-- `\w\w` -/
def wpair : RE := RE.seq RE.wd RE.wd

/-- `" \w\w \w\w \w\w \w\w"` -/
def spacedQuad : RE :=
  reList [RE.ch ' ', wpair, RE.ch ' ', wpair, RE.ch ' ', wpair, RE.ch ' ', wpair]

/-- `"\w\w \w\w \w\w \w\w"` -/
def quad4 : RE :=
  reList [wpair, RE.ch ' ', wpair, RE.ch ' ', wpair, RE.ch ' ', wpair]

/-- `\[(06 \w\w \w\w )(\w\w \w\w \w\w \w\w)]` -/
def pat1 : RE := reList [RE.ch '[',
  RE.grp 0 (reList [litStr "06 ".data, wpair, RE.ch ' ', wpair, RE.ch ' ']),
  RE.grp 1 quad4, RE.ch ']']

/-- `\[(08 )(\w\w \w\w \w\w \w\w)]` -/
def pat2 : RE := reList [RE.ch '[', RE.grp 0 (litStr "08 ".data),
  RE.grp 1 quad4, RE.ch ']']

/-- `\[(09 \w\w)(( \w\w \w\w \w\w \w\w)+)\]` -/
def pat3 : RE := reList [RE.ch '[', RE.grp 0 (reList [litStr "09 ".data, wpair]),
  RE.grp 1 (RE.plus (RE.grp 2 spacedQuad)), RE.ch ']']

/-- `\[(0A )(\w\w \w\w \w\w \w\w)\]` -/
def pat4 : RE := reList [RE.ch '[', RE.grp 0 (litStr "0A ".data),
  RE.grp 1 quad4, RE.ch ']']

/-- `\[(1A 0[0|1])(( \w\w \w\w \w\w \w\w)+)( \w\w)\]` (the class `[0|1]`
    matches the characters '0', '|', '1') -/
def pat5 : RE := reList [RE.ch '[',
  RE.grp 0 (reList [litStr "1A 0".data, RE.cls ['0', '|', '1']]),
  RE.grp 1 (RE.plus (RE.grp 2 spacedQuad)),
  RE.grp 3 (reList [RE.ch ' ', wpair]), RE.ch ']']

/-- `\[(1B 0[2|3] )(\w\w \w\w \w\w \w\w)\]` -/
def pat6 : RE := reList [RE.ch '[',
  RE.grp 0 (reList [litStr "1B 0".data, RE.cls ['2', '|', '3'], RE.ch ' ']),
  RE.grp 1 quad4, RE.ch ']']

/-- `\[(1F 63 )(\w\w \w\w \w\w \w\w)\]` -/
def pat7 : RE := reList [RE.ch '[', RE.grp 0 (litStr "1F 63 ".data),
  RE.grp 1 quad4, RE.ch ']']

/-- `\[(1F C0 \w\w)(( \w\w \w\w \w\w \w\w)+)\]` -/
def pat8 : RE := reList [RE.ch '[', RE.grp 0 (reList [litStr "1F C0 ".data, wpair]),
  RE.grp 1 (RE.plus (RE.grp 2 spacedQuad)), RE.ch ']']

/-- The eight pointer-bearing shapes with their group counts. -/
def PATTERNS : List (RE × Nat) :=
  [(pat1, 2), (pat2, 2), (pat3, 3), (pat4, 2), (pat5, 4), (pat6, 2),
   (pat7, 2), (pat8, 3)]

/-- The `" ".join(p[idx:idx+4])` chunks of the split pointer-list group. -/
def chunk4 : List (List Char) → List (List Char)
  | [] => []
  | [a] => [joinSpace [a]]
  | [a, b] => [joinSpace [a, b]]
  | [a, b, c] => [joinSpace [a, b, c]]
  | a :: b :: c :: e :: rest => joinSpace [a, b, c, e] :: chunk4 rest

/-- Per-match pointer extraction of getText's scan: `match[1].strip()`; a
    single FromSNES for 2-group patterns, else split into 4-byte chunks,
    each FromSNES'd. -/
def scanMatch (nG : Nat) (caps : Caps) : Option (List Int) :=
  let ptr := stripSp (caps.getD 1 [])
  if nG < 3 then (FromSNES ptr).map (fun a => [a])
  else (chunk4 (splitWs ptr)).mapM FromSNES

/-- The pattern scan at the end of CCScriptWriter.getText: every
    translated pointer operand, in pattern order then match order. -/
def scanPointers (s : List Char) : Option (List Int) :=
  (PATTERNS.mapM (fun pn => (findAll pn.1 pn.2 s).mapM (scanMatch pn.2))).map
    (fun l => (l.map List.flatten).flatten)

/-- CCScriptWriter.getText: the byte walk plus the pointer scan.  Returns
    the block text, the next offset, and the pointer candidates appended
    to `self.pointers`. -/
def getText (d : Buf) (i : Nat) (stop : Option Int) (fuel : Nat) :
    Option (List Char × Nat × List Int) := do
  let (s, j) ← getTextLoop d stop fuel i
  let ps ← scanPointers s
  return (s, j, ps)

def sortI (l : List Int) : List Int := List.insertionSort (· ≤ ·) l

def findClosestAux : List Int → Int → Int → Option Int → Int × Option Int
  | [], _, lower, higher => (lower, higher)
  | k :: ks, p, lower, higher =>
    if 0 ≤ p - k then findClosestAux ks p k higher
    else findClosestAux ks p lower (some k)

/-- CCScriptWriter.FindClosest over the dictionary's keys: iterate the
    sorted keys, `lower` starting at 0 and `higher` unassigned; if no key
    exceeds the search key, the final read of `higher` raises an uncaught
    UnboundLocalError (`none`). -/
def FindClosest (keys : List Int) (p : Int) : Option (Int × Int) :=
  match findClosestAux (sortI keys) p 0 none with
  | (_, none) => none
  | (lower, some h) => some (lower, h)

/-- `self.dialogue[k] = v` on the model dictionary (update or append). -/
def insertA (l : List (Int × List Char)) (k : Int) (v : List Char) :
    List (Int × List Char) :=
  if l.any (fun p => p.1 = k) then l.map (fun p => if p.1 = k then (k, v) else p)
  else l ++ [(k, v)]

def keysOf (l : List (Int × List Char)) : List Int := l.map (·.1)

/-- The inserted `"[0A {}]".format(ToSNES(pointer))` jump token. -/
def jumpTok (p : Nat) : List Char := "[0A ".data ++ ToSNES p ++ "]".data

/-- One iteration of the split loop in loadDialogue: find the enclosing
    block, re-decode it up to the pointer, append the jump token, decode a
    fresh block at the pointer, and accumulate every pointer candidate
    either decode reported.  (A negative lower bound or pointer would
    index the Python array from the end; modelled as an abort —
    unreachable in the runs the claims exercise.) -/
def processPointer (d : Buf) (fuel : Nat)
    (st : List (Int × List Char) × List Int) (p : Int) :
    Option (List (Int × List Char) × List Int) :=
  match FindClosest (keysOf st.1) p with
  | none => none
  | some (lower, _) =>
    if 0 ≤ lower ∧ 0 ≤ p then
      match getText d lower.toNat (some p) fuel with
      | none => none
      | some (s, _, ps1) =>
        match getText d p.toNat none fuel with
        | none => none
        | some (s2, _, ps2) =>
          some (insertA (insertA st.1 lower (s ++ jumpTok p.toNat)) p s2,
                st.2 ++ ps1 ++ ps2)
    else none

/-- The pointers the split loop iterates over:
    `filter(None, sorted(set(raw)))` with the existing block keys then
    removed one occurrence each (after dedup, the same as filtering). -/
def pointersToProcess (raw : List Int) (keys : List Int) : List Int :=
  ((sortI raw.dedup).filter (fun p => p ≠ 0)).filter (fun p => ¬ keys.contains p)

/-- The "Checking pointers" phase of loadDialogue: `self.pointers` is
    reset, then each pending root is processed once; candidates reported
    during these decodes only accumulate in the returned list. -/
def checkPointers (d : Buf) (fuel : Nat) (dlg : List (Int × List Char))
    (raw : List Int) : Option (List (Int × List Char) × List Int) :=
  (pointersToProcess raw (keysOf dlg)).foldlM (processPointer d fuel) (dlg, [])

/-- The linear scan of one TEXT_DATA section: decode block after block
    until the section end is reached. -/
def scanRange (d : Buf) (gfuel e : Nat) : Nat → Nat → Option (List (Int × List Char) × List Int)
  | 0, _ => none
  | f + 1, i =>
    if i < e then
      match getText d i none gfuel with
      | none => none
      | some (s, j, ps) =>
        match scanRange d gfuel e f j with
        | none => none
        | some (dl, ps') => some (((i : Int), s) :: dl, ps ++ ps')
    else some ([], [])

def scanSections (d : Buf) (gfuel : Nat) : List (Nat × Nat) → Option (List (Int × List Char) × List Int)
  | [] => some ([], [])
  | sec :: rest =>
    match scanRange d gfuel sec.2 gfuel sec.1 with
    | none => none
    | some (dl, ps) =>
      match scanSections d gfuel rest with
      | none => none
      | some (dl', ps') => some (dl ++ dl', ps ++ ps')

/-- The fixed linear-scan ranges of the dialogue banks. -/
def TEXT_DATA : List (Nat × Nat) :=
  [(0x50000, 0x51b12), (0x51b12, 0x8bc2c), (0x8d9ed, 0x9ff2f),
   (0x2f4e20, 0x2fa37a)]

def toDecAux : Nat → Nat → List Char
  | 0, _ => []
  | f + 1, n => if n = 0 then [] else Char.ofNat (48 + n % 10) :: toDecAux f (n / 10)

/-- Python `str(n)` for a natural number. -/
def toDec (n : Nat) : List Char := if n = 0 then ['0'] else (toDecAux n n).reverse

/-- `"data_{0:0>2}".format(n)`. -/
def dataName (n : Nat) : List Char :=
  "data_".data ++ (List.replicate (2 - (toDec n).length) '0' ++ toDec n)

/-- The output-file assignment: enumerate the sorted block addresses and
    bucket every 100 consecutive addresses into one data file. -/
def dataFilesOf (keys : List Int) : List (Int × List Char) :=
  (sortI keys).enum.map (fun kb => (kb.2, dataName (kb.1 / 100)))

/-- CCScriptWriter.loadDialogue, parametrised by the scan sections (the
    source fixes them to TEXT_DATA) and the externally supplied CoilSnake
    pointer roots.  Returns the final dialogue map, the pointer candidates
    left unprocessed in `self.pointers`, and the output-file assignment. -/
def loadDialogue (d : Buf) (sections : List (Nat × Nat)) (ext : List Int)
    (fuel : Nat) :
    Option (List (Int × List Char) × List Int × List (Int × List Char)) := do
  let (dlg, ps) ← scanSections d fuel sections
  let (dlg2, leftover) ← checkPointers d fuel dlg (ps ++ ext)
  return (dlg2, leftover, dataFilesOf (keysOf dlg2))

def COMPRESSED_TEXT_PTRS : Nat := 0x8cded

/-- Python slice `data[p:p+n]` (truncates at the end, never raises). -/
def sliceB (d : Buf) (p n : Nat) : List Nat :=
  (List.range (min n (d.size - p))).map (fun k => d.byte (p + k))

/-- The null-terminated byte run at `q` (running off the buffer is an
    uncaught IndexError; an endless run exhausts the fuel). -/
def readCString (d : Buf) : Nat → Nat → Option (List Nat)
  | 0, _ => none
  | f + 1, q =>
    match d.get? q with
    | none => none
    | some 0 => some []
    | some b => (readCString d f (q + 1)).map (b :: ·)

/-- CCScriptWriter.replaceCompressedText on the two captured groups.
    `reduce` over an empty list (pointer table sliced entirely past the
    end), `chr` of a negative shifted byte, and a table entry below the
    bank base (a negative Python index) are modelled as aborts. -/
def replaceCompressedText (d : Buf) (g0 g1 : List Char) (fuel : Nat) :
    Option (List Char) :=
  (parseHex g0).bind (fun b =>
    (parseHex g1).bind (fun idx =>
      match (sliceB d (COMPRESSED_TEXT_PTRS + ((b - 0x15) * 0x100 + idx) * 4) 4).reverse with
      | [] => none
      | c0 :: cr =>
        if 0xC00000 ≤ (c0 :: cr).foldl (fun x y => (x <<< 8) ||| y) 0 then
          (readCString d fuel
              ((c0 :: cr).foldl (fun x y => (x <<< 8) ||| y) 0 - 0xC00000)).bind
            (fun cs =>
              cs.mapM (fun c => if 0x30 ≤ c then some (Char.ofNat (c - 0x30)) else none))
        else none))

/-- An occurrence of `\[(15|16|17) (\w\w)\]` at the start of the string:
    the two captured groups and the rest. -/
def matchComp : List Char → Option (List Char × List Char × List Char)
  | '[' :: d1 :: d2 :: ' ' :: w1 :: w2 :: ']' :: rest =>
    if ([d1, d2] = ['1', '5'] ∨ [d1, d2] = ['1', '6'] ∨ [d1, d2] = ['1', '7']) ∧
       isWordChar w1 ∧ isWordChar w2 then
      some ([d1, d2], [w1, w2], rest)
    else none
  | _ => none

/-- The compressed-text substitution pass of processDialogue:
    `re.sub(r"\[(15|16|17) (\w\w)\]", replaceCompressedText, block)` —
    scanning resumes after each match in the ORIGINAL string, so inserted
    replacement text is never rescanned (non-recursive expansion). -/
def substCompressed (d : Buf) (gfuel : Nat) : Nat → List Char → Option (List Char)
  | 0, _ => none
  | _ + 1, [] => some []
  | f + 1, c :: rest =>
    match matchComp (c :: rest) with
    | some (g0, g1, rest7) => do
      let rep ← replaceCompressedText d g0 g1 gfuel
      let tl ← substCompressed d gfuel f rest7
      return rep ++ tl
    | none => (substCompressed d gfuel f rest).map (c :: ·)

/-- `Decodes d stop i s j`: the byte walk from `i` returns `(s, j)` for
    some fuel (and then for every larger fuel). -/
def Decodes (d : Buf) (stop : Option Int) (i : Nat) (s : List Char) (j : Nat) : Prop :=
  ∃ f, getTextLoop d stop f i = some (s, j)

/-- A block of four literal spaces and a terminator (for the boundary
    split scenario). -/
def bufSplitOk : Buf := Buf.ofList [0x50, 0x50, 0x50, 0x50, 0x02]

/-- A block whose first token is a 2-operand control code (a split point
    inside the operands is not a token boundary). -/
def bufSplitBad : Buf := Buf.ofList [0x04, 0x50, 0x50, 0x02]

/-- Two literals then the terminating code 0x0A with its 4-byte pointer
    operand (mapped address of offset 8). -/
def bufTermPtr : Buf := Buf.ofList [0x50, 0x50, 0x0A, 0x08, 0x00, 0xC0, 0x00]

/-- Two literals then the 0-operand terminator 0x02. -/
def bufTermPlain : Buf := Buf.ofList [0x50, 0x50, 0x02]

/-- A 0x09 code with count byte 2 and two 4-byte mapped addresses
    (offsets 0x50000 and 0x50010), then a terminator. -/
def bufPtrList : Buf :=
  Buf.ofList [0x09, 0x02, 0x00, 0x00, 0xC5, 0x00, 0x10, 0x00, 0xC5, 0x00, 0x02]

/-- Discovery scenario: block 0 = `[08 <ptr 8>][02]`, a decodable block at
    8 = `[08 <ptr 40>][02]`, and a block `[02]` at 20; offset 40 is never
    decoded. -/
def bufDiscovery : Buf := Buf.ofList
  [0x08, 0x08, 0x00, 0xC0, 0x00, 0x02, 0x50, 0x50,
   0x08, 0x28, 0x00, 0xC0, 0x00, 0x02, 0x50, 0x50, 0x50, 0x50, 0x50, 0x50,
   0x02]

/-- A 0x1C code whose sub-byte 0x10 is absent from the 0x1C length table. -/
def bufGap : Buf := Buf.ofList [0x1C, 0x10]

/-- Terminators at offsets 0 and 50 (for the malformed-root scenario with
    a known block at 100). -/
def bufRoots : Buf := ⟨60, fun i => if i = 0 then 0x02 else if i = 50 then 0x02 else 0x50⟩

/-- A compressed-text table whose bank-0/index-0 entry points at offset
    0x10, where the shifted bytes of the text `"[15 00]"` sit,
    null-terminated. -/
def bufCompressed : Buf :=
  ⟨0x8cdf1, fun i =>
    if i = 0x8cded then 0x10 else if i = 0x8cdee then 0x00 else
    if i = 0x8cdef then 0xC0 else if i = 0x8cdf0 then 0x00 else
    if i = 0x10 then 0x8B else if i = 0x11 then 0x61 else if i = 0x12 then 0x65 else
    if i = 0x13 then 0x50 else if i = 0x14 then 0x60 else if i = 0x15 then 0x60 else
    if i = 0x16 then 0x8D else if i = 0x17 then 0x00 else 0⟩

/-- The big-endian value of the reversed 4-byte pointer-table entry, as
    computed by `reduce(lambda x, y: (x << 8) | y, reversed(entry))`. -/
def value4 (b0 b1 b2 b3 : Nat) : Nat :=
  ((((b3 <<< 8) ||| b2) <<< 8 ||| b1) <<< 8) ||| b0

/-- The chunk id the output assignment gives an address: its position in
    the sorted key list, divided by 100. -/
def chunkIdOf (keys : List Int) (a : Int) : Nat := (sortI keys).indexOf a / 100

/-- The dialogue map after the initial linear scan of `bufDiscovery` over
    sections [0,1) and [20,21). -/
def dlgScan : List (Int × List Char) :=
  [((0 : Int), "[08 08 00 C0 00][02]".data), (20, "[02]".data)]

/-- The dialogue map after the pointer-checking pass of `bufDiscovery`:
    block 0 truncated-and-jumped, block 20 untouched, new block at 8. -/
def dlgFinal : List (Int × List Char) :=
  [((0 : Int), "[08 08 00 C0 00][02][0A 08 00 C0 00]".data),
   (20, "[02]".data), (8, "[08 28 00 C0 00][02]".data)]

/-- The output-file assignment of the `bufDiscovery` run. -/
def dataFilesFinal : List (Int × List Char) :=
  [((0 : Int), "data_00".data), (8, "data_00".data), (20, "data_00".data)]

/-- The capture groups of the one pat3 match inside the decoded
    `bufPtrList` block text (group 1 = `09 02`, group 2 = the
    pointer-list text, group 3 = the last quad). -/
def capsPtrList : Caps :=
  ["09 02".data, " 00 00 C5 00 10 00 C5 00".data, " 10 00 C5 00".data]

/-! ### Lemmas about hex rendering and parsing -/

lemma hexCharVal_hexDigitChar (d : Nat) (h : d < 16) :
    hexCharVal (hexDigitChar d) = some d := by
  interval_cases d <;> decide

lemma hexDigitChar_ne_space (d : Nat) (h : d < 16) : hexDigitChar d ≠ ' ' := by
  interval_cases d <;> decide

lemma parseHexAux_append (l1 l2 : List Char) (a : Nat) :
    parseHexAux (l1 ++ l2) a =
      match parseHexAux l1 a with
      | none => none
      | some b => parseHexAux l2 b := by
  induction l1 generalizing a with
  | nil => rfl
  | cons c cs ih =>
    simp only [List.cons_append, parseHexAux]
    cases hexCharVal c
    · rfl
    · exact ih _

lemma toHexAux_cons (f n : Nat) (h : n ≠ 0) :
    toHexAux (f + 1) n = hexDigitChar (n % 16) :: toHexAux f (n / 16) := by
  simp [toHexAux, h]

lemma toHexAux_ne_nil (f n : Nat) (h0 : 0 < n) (hf : n ≤ f) : toHexAux f n ≠ [] := by
  cases f with
  | zero => omega
  | succ f => rw [toHexAux_cons f n (by omega)]; exact List.cons_ne_nil _ _

lemma toHexAux_parse (f : Nat) : ∀ n a, n ≤ f →
    parseHexAux (toHexAux f n).reverse a =
      some (a * 16 ^ (toHexAux f n).length + n) := by
  induction f with
  | zero =>
    intro n a h
    interval_cases n
    simp [toHexAux, parseHexAux]
  | succ f ih =>
    intro n a h
    by_cases h0 : n = 0
    · subst h0; simp [toHexAux, parseHexAux]
    · have hlt := Nat.div_lt_self (by omega : 0 < n) (by norm_num : 1 < 16)
      have hdiv : n / 16 ≤ f := by omega
      rw [toHexAux_cons f n h0, List.reverse_cons, parseHexAux_append, ih (n / 16) a hdiv]
      have hmod : hexCharVal (hexDigitChar (n % 16)) = some (n % 16) :=
        hexCharVal_hexDigitChar _ (Nat.mod_lt _ (by norm_num))
      simp only [parseHexAux, hmod, List.length_cons, Option.some.injEq]
      have h16 := Nat.div_add_mod n 16
      rw [pow_succ]
      ring_nf
      omega

lemma parseHex_toHexUpper (n : Nat) (h : 0 < n) : parseHex (toHexUpper n) = some n := by
  rw [parseHex, toHexUpper,
    if_neg (by simpa using toHexAux_ne_nil n n h le_rfl)]
  simpa using toHexAux_parse n n 0 le_rfl

lemma parseHexAux_replicate_zero (k : Nat) (l : List Char) :
    parseHexAux (List.replicate k '0' ++ l) 0 = parseHexAux l 0 := by
  induction k with
  | zero => rfl
  | succ k ih =>
    rw [List.replicate_succ, List.cons_append]
    simpa [parseHexAux, hexCharVal] using ih

lemma toHexAux_length (f : Nat) : ∀ n k, n ≤ f → n < 16 ^ k →
    (toHexAux f n).length ≤ k := by
  induction f with
  | zero => intro n k h _; interval_cases n; simp [toHexAux]
  | succ f ih =>
    intro n k h hk
    by_cases h0 : n = 0
    · subst h0; simp [toHexAux]
    · cases k with
      | zero => simp at hk; omega
      | succ k =>
        rw [toHexAux_cons f n h0, List.length_cons]
        have hd16 : n / 16 < 16 ^ k := by
          rw [Nat.div_lt_iff_lt_mul (by norm_num)]
          calc n < 16 ^ (k + 1) := hk
          _ = 16 ^ k * 16 := by ring
        have hlt := Nat.div_lt_self (by omega : 0 < n) (by norm_num : 1 < 16)
        have := ih (n / 16) k (by omega) hd16
        omega

lemma toHexAux_mem (f : Nat) : ∀ n c, c ∈ toHexAux f n →
    ∃ d, d < 16 ∧ c = hexDigitChar d := by
  induction f with
  | zero => intro n c h; simp [toHexAux] at h
  | succ f ih =>
    intro n c h
    by_cases h0 : n = 0
    · subst h0; simp [toHexAux] at h
    · rw [toHexAux_cons f n h0] at h
      rcases List.mem_cons.mp h with h | h
      · exact ⟨n % 16, Nat.mod_lt _ (by norm_num), h⟩
      · exact ih _ _ h

lemma exists_len8 (l : List Char) (h : l.length = 8) :
    ∃ y0 y1 y2 y3 y4 y5 y6 y7, l = [y0, y1, y2, y3, y4, y5, y6, y7] := by
  rcases l with _ | ⟨y0, _ | ⟨y1, _ | ⟨y2, _ | ⟨y3, _ | ⟨y4, _ | ⟨y5, _ |
    ⟨y6, _ | ⟨y7, _ | ⟨y8, t⟩⟩⟩⟩⟩⟩⟩⟩⟩ <;> simp_all

lemma count_rearrange (a0 a1 a2 a3 a4 a5 a6 a7 : Char) :
    List.count '0' [a6, a7, ' ', a4, a5, ' ', a2, a3, ' ', a0, a1] =
    List.count '0' [a0, a1, a2, a3, a4, a5, a6, a7] := by
  simp [List.count_cons]
  omega

/-! ### Claim theorems: C10 and C2 -/

/-- C10: for every byte value, FormatHex returns exactly two uppercase
    hexadecimal digits whose value equals the byte (zero renders as
    `"00"`), and both characters are `\w` word characters — which is what
    lets the two-hex-digits-per-byte pointer patterns match rendered
    control-code bytes. -/
theorem format_hex_two_digits (b : Nat) (hb : b < 256) :
    (FormatHex b).length = 2 ∧ parseHex (FormatHex b) = some b ∧
    (∀ c ∈ FormatHex b, c ∈ "0123456789ABCDEF".data ∧ isWordChar c = true) ∧
    FormatHex 0 = "00".data := by
  interval_cases b <;> decide

theorem format_hex_two_digits_witness :
    (FormatHex 0xAB).length = 2 ∧ parseHex (FormatHex 0xAB) = some 0xAB ∧
    (∀ c ∈ FormatHex 0xAB, c ∈ "0123456789ABCDEF".data ∧ isWordChar c = true) ∧
    FormatHex 0 = "00".data :=
  format_hex_two_digits 0xAB (by norm_num)

/-- C2: FromSNES ∘ ToSNES is the identity on in-range offsets; the
    all-zero mapped value translates to offset 0 and `ToSNES 0` is the
    all-zero value; and a 0 pointer never reaches the split loop (it is
    filtered out as null, never a decode target). -/
theorem snes_roundtrip :
    (∀ x : Nat, 0 < x → x + 0xC00000 < 16 ^ 8 →
        FromSNES (ToSNES x) = some (x : Int)) ∧
    FromSNES (ToSNES 0) = some 0 ∧ ToSNES 0 = "00 00 00 00".data ∧
    (∀ raw keys, (0 : Int) ∉ pointersToProcess raw keys) := by
  refine ⟨?_, by decide, by decide, ?_⟩
  · intro x hx hrange
    have hv0 : 0 < x + 0xC00000 := by omega
    have hL : (toHexUpper (x + 0xC00000)).length ≤ 8 := by
      simpa [toHexUpper] using toHexAux_length (x + 0xC00000) (x + 0xC00000) 8 le_rfl hrange
    have hlen8 : (padTo8 (toHexUpper (x + 0xC00000))).length = 8 := by
      simp [padTo8]; omega
    have hparse : parseHexAux (padTo8 (toHexUpper (x + 0xC00000))) 0 =
        some (x + 0xC00000) := by
      rw [padTo8, parseHexAux_replicate_zero, toHexUpper]
      simpa using toHexAux_parse (x + 0xC00000) (x + 0xC00000) 0 le_rfl
    have hmem : ∀ c ∈ padTo8 (toHexUpper (x + 0xC00000)), c ≠ ' ' := by
      intro c hc
      rcases List.mem_append.mp hc with hc | hc
      · rw [List.eq_of_mem_replicate hc]; decide
      · obtain ⟨d, hd, rfl⟩ := toHexAux_mem _ _ c (List.mem_reverse.mp hc)
        exact hexDigitChar_ne_space d hd
    obtain ⟨a0, a1, a2, a3, a4, a5, a6, a7, hexp⟩ :=
      exists_len8 _ hlen8
    rw [hexp] at hparse hmem
    have hne0 : a0 ≠ ' ' := hmem a0 (by simp)
    have hne1 : a1 ≠ ' ' := hmem a1 (by simp)
    have hne2 : a2 ≠ ' ' := hmem a2 (by simp)
    have hne3 : a3 ≠ ' ' := hmem a3 (by simp)
    have hne4 : a4 ≠ ' ' := hmem a4 (by simp)
    have hne5 : a5 ≠ ' ' := hmem a5 (by simp)
    have hne6 : a6 ≠ ' ' := hmem a6 (by simp)
    have hne7 : a7 ≠ ' ' := hmem a7 (by simp)
    have hToS : ToSNES x = [a6, a7, ' ', a4, a5, ' ', a2, a3, ' ', a0, a1] := by
      rw [ToSNES, if_neg (by omega), hexp]
      simp [chunkPairs, joinSpace]
    have hcount : List.count '0' [a6, a7, ' ', a4, a5, ' ', a2, a3, ' ', a0, a1] ≠ 8 := by
      intro hcnt
      rw [count_rearrange] at hcnt
      have hall : ∀ b ∈ [a0, a1, a2, a3, a4, a5, a6, a7], '0' = b :=
        List.count_eq_length.mp (by simpa using hcnt)
      have hrep : [a0, a1, a2, a3, a4, a5, a6, a7] = List.replicate 8 '0' := by
        rw [List.eq_replicate_iff]
        exact ⟨by simp, fun b hb => (hall b hb).symm⟩
      rw [hrep] at hparse
      have h0 : parseHexAux (List.replicate 8 '0') 0 = some 0 := by rfl
      have : (0 : Nat) = x + 0xC00000 := Option.some_inj.mp (h0 ▸ hparse)
      omega
    rw [hToS, FromSNES, if_neg hcount]
    have hstrip : stripSp [a6, a7, ' ', a4, a5, ' ', a2, a3, ' ', a0, a1] =
        [a6, a7, ' ', a4, a5, ' ', a2, a3, ' ', a0, a1] := by
      simp [stripSp, dropSpaces, hne6, hne1]
    have hsplit : splitWs [a6, a7, ' ', a4, a5, ' ', a2, a3, ' ', a0, a1] =
        [[a6, a7], [a4, a5], [a2, a3], [a0, a1]] := by
      simp [splitWs, splitWsAux, hne0, hne1, hne2, hne3, hne4, hne5, hne6, hne7]
    rw [hstrip, hsplit]
    have hflat : ([[a6, a7], [a4, a5], [a2, a3], [a0, a1]] :
        List (List Char)).reverse.flatten = [a0, a1, a2, a3, a4, a5, a6, a7] := by
      simp
    rw [hflat, parseHex, if_neg (List.cons_ne_nil a0 _), hparse]
    simp

  · intro raw keys h
    simp [pointersToProcess, List.mem_filter] at h

theorem snes_roundtrip_witness :
    FromSNES (ToSNES 0x50000) = some ((0x50000 : Nat) : Int) ∧
    (0 : Int) ∉ pointersToProcess [0, 5] [] :=
  ⟨snes_roundtrip.1 0x50000 (by norm_num) (by norm_num),
   snes_roundtrip.2.2.2 [0, 5] []⟩

/-! ### Lemmas about the block decoder -/

lemma getTextLoop_mono (d : Buf) (stop : Option Int) :
    ∀ f f' i r, f ≤ f' → getTextLoop d stop f i = some r →
      getTextLoop d stop f' i = some r := by
  intro f
  induction f with
  | zero => intro f' i r _ h; simp [getTextLoop] at h
  | succ f ih =>
    intro f' i r hle h
    cases f' with
    | zero => omega
    | succ f' =>
      rw [getTextLoop] at h ⊢
      by_cases hs : stopHit stop i = true
      · rw [if_pos hs] at h ⊢; exact h
      · rw [if_neg hs] at h ⊢
        simp only [Option.bind_eq_some] at h ⊢
        obtain ⟨tnt, hstep, h⟩ := h
        refine ⟨tnt, hstep, ?_⟩
        by_cases ht : tnt.2.2 = true
        · rw [if_pos ht] at h ⊢; exact h
        · rw [if_neg ht] at h ⊢
          simp only [Option.bind_eq_some] at h ⊢
          obtain ⟨sj, hrec, h⟩ := h
          exact ⟨sj, ih f' _ sj (by omega) hrec, h⟩

lemma decodes_mono (d : Buf) (stop : Option Int) (i : Nat) (s : List Char)
    (j : Nat) (h : Decodes d stop i s j) (f : Nat) :
    ∃ g, f ≤ g ∧ getTextLoop d stop g i = some (s, j) := by
  obtain ⟨g, hg⟩ := h
  exact ⟨max f g, le_max_left f g,
    getTextLoop_mono d stop g (max f g) i (s, j) (le_max_right f g) hg⟩

lemma split_reconstructs_aux (d : Buf) (p : Nat) :
    ∀ f g i s1 s j, getTextLoop d (some (p : Int)) f i = some (s1, p) →
      getTextLoop d none g i = some (s, j) → p ≠ j →
      ∃ s2, s = s1 ++ s2 ∧ Decodes d none p s2 j := by
  intro f
  induction f with
  | zero => intro g i s1 s j h _ _; simp [getTextLoop] at h
  | succ f ih =>
    intro g i s1 s j h1 h2 hne
    cases g with
    | zero => simp [getTextLoop] at h2
    | succ g =>
      have h2' := h2
      rw [getTextLoop] at h1 h2
      have hsn : stopHit none i = false := rfl
      rw [hsn] at h2
      simp only [Bool.false_eq_true, if_false] at h2
      by_cases hs : stopHit (some (p : Int)) i = true
      · rw [if_pos hs] at h1
        simp only [Option.some.injEq, Prod.mk.injEq] at h1
        obtain ⟨hs1, hip⟩ := h1
        subst hip
        exact ⟨s, by rw [← hs1]; simp, ⟨g + 1, h2'⟩⟩
      · rw [if_neg hs] at h1
        simp only [Option.bind_eq_some] at h1 h2
        obtain ⟨tnt, hstep, h1⟩ := h1
        obtain ⟨tnt', hstep', h2⟩ := h2
        rw [hstep] at hstep'
        obtain rfl : tnt = tnt' := by
          simpa using hstep'
        by_cases ht : tnt.2.2 = true
        · rw [if_pos ht] at h1 h2
          simp only [Option.some.injEq, Prod.mk.injEq] at h1 h2
          exact absurd (h1.2.symm.trans h2.2) hne
        · rw [if_neg ht] at h1 h2
          simp only [Option.bind_eq_some] at h1 h2
          obtain ⟨sp1, hrec1, h1⟩ := h1
          obtain ⟨sp2, hrec2, h2⟩ := h2
          simp only [Option.some.injEq, Prod.mk.injEq] at h1 h2
          obtain ⟨hs1, hp'⟩ := h1
          obtain ⟨hs', hj'⟩ := h2
          have hrec1' : getTextLoop d (some (p : Int)) f tnt.2.1 = some (sp1.1, p) := by
            rw [hrec1, ← hp']
          have hrec2' : getTextLoop d none g tnt.2.1 = some (sp2.1, j) := by
            rw [hrec2, ← hj']
          obtain ⟨s2, hsplit, hdec⟩ := ih g tnt.2.1 sp1.1 sp2.1 j hrec1' hrec2' hne
          refine ⟨s2, ?_, hdec⟩
          rw [← hs', hsplit, ← hs1, List.append_assoc]

lemma step_terminator (d : Buf) (i : Nat) (tok : List Char) (nxt : Nat)
    (h : step d i = some (tok, nxt, true)) :
    (Buf.get? d i = some 0x02 ∧ nxt = i + 1) ∨
    (Buf.get? d i = some 0x0A ∧ nxt = i + 5) := by
  unfold step at h
  simp only [Option.bind_eq_some] at h
  obtain ⟨c, hc, h⟩ := h
  by_cases hle : c ≤ 0x30
  · rw [if_pos hle] at h
    simp only [Option.bind_eq_some, Option.map_eq_some'] at h
    obtain ⟨len, hcl, ops, hrb, hmk⟩ := h
    have h3 : decide (c = 0x02 ∨ c = 0x0A) = true := congrArg (fun t => t.2.2) hmk
    have h2 : i + 1 + len = nxt := congrArg (fun t => t.2.1) hmk
    have hc210 : c = 0x02 ∨ c = 0x0A := of_decide_eq_true h3
    rcases hc210 with rfl | rfl
    · left
      refine ⟨hc, ?_⟩
      have h0 : codeLen d 0x02 (i + 1) = some 0 := rfl
      rw [h0] at hcl
      have hl : len = 0 := by simpa using hcl.symm
      omega
    · right
      refine ⟨hc, ?_⟩
      have h0 : codeLen d 0x0A (i + 1) = some 4 := rfl
      rw [h0] at hcl
      have hl : len = 4 := by simpa using hcl.symm
      omega
  · rw [if_neg hle] at h
    split_ifs at h <;> simp only [Option.some.injEq, Prod.mk.injEq] at h <;>
      exact absurd h.2.2 (by simp)

lemma stop_cause (d : Buf) (stop : Option Int) :
    ∀ f i s j, getTextLoop d stop f i = some (s, j) →
      stopHit stop j = true ∨
      (∃ k, Buf.get? d k = some 0x02 ∧ j = k + 1) ∨
      (∃ k, Buf.get? d k = some 0x0A ∧ j = k + 5) := by
  intro f
  induction f with
  | zero => intro i s j h; simp [getTextLoop] at h
  | succ f ih =>
    intro i s j h
    rw [getTextLoop] at h
    by_cases hs : stopHit stop i = true
    · rw [if_pos hs] at h
      simp only [Option.some.injEq, Prod.mk.injEq] at h
      left
      rw [← h.2]
      exact hs
    · rw [if_neg hs] at h
      simp only [Option.bind_eq_some] at h
      obtain ⟨tnt, hstep, h⟩ := h
      by_cases ht : tnt.2.2 = true
      · rw [if_pos ht] at h
        simp only [Option.some.injEq, Prod.mk.injEq] at h
        right
        have hstep' : step d i = some (tnt.1, tnt.2.1, true) := by
          rw [← ht]
          exact hstep
        rcases step_terminator d i tnt.1 tnt.2.1 hstep' with ⟨hk, hj⟩ | ⟨hk, hj⟩
        · left; exact ⟨i, hk, by omega⟩
        · right; exact ⟨i, hk, by omega⟩
      · rw [if_neg ht] at h
        simp only [Option.bind_eq_some] at h
        obtain ⟨sj, hrec, h⟩ := h
        simp only [Option.some.injEq, Prod.mk.injEq] at h
        have := ih tnt.2.1 sj.1 sj.2 (by rw [hrec])
        rw [← h.2]
        exact this

/-! ### Claim theorems: C3, C4, C5 -/

/-- C3 counterexample: for the block [0, 4) = `[04 50 50][02]` and the
    interior split point p = 1 (inside the 0x04 code's operands), the
    truncated decode runs straight past the stop offset, the fresh decode
    at 1 re-reads operand bytes as literals, the concatenation differs
    from the unsplit text, and the combined length is not the original
    plus one jump token. -/
theorem split_counterexample :
    (0 < 1 ∧ 1 < 4) ∧
    getTextLoop bufSplitBad none 10 0 = some ("[04 50 50][02]".data, 4) ∧
    getTextLoop bufSplitBad (some 1) 10 0 = some ("[04 50 50][02]".data, 4) ∧
    getTextLoop bufSplitBad none 10 1 = some ("  [02]".data, 4) ∧
    "[04 50 50][02]".data ++ "  [02]".data ≠ "[04 50 50][02]".data ∧
    ("[04 50 50][02]".data ++ jumpTok 1).length + ("  [02]".data).length ≠
      ("[04 50 50][02]".data).length + (jumpTok 1).length := by
  decide

/-- C3 (amended): when the truncated decode actually stops at the split
    point p — that is, p falls on a token boundary of the lower block —
    and p is not already the block's end, the unsplit token text is
    exactly the truncated text followed by the fresh decode from p, and
    the combined length of the two resulting blocks is the original
    length plus the one inserted jump token. -/
theorem split_boundary_reconstructs (d : Buf) (p a j : Nat)
    (s1 s : List Char)
    (h1 : Decodes d (some (p : Int)) a s1 p)
    (h2 : Decodes d none a s j) (hne : p ≠ j) :
    ∃ s2, s = s1 ++ s2 ∧ Decodes d none p s2 j ∧
      (s1 ++ jumpTok p).length + s2.length = s.length + (jumpTok p).length := by
  obtain ⟨f, h1⟩ := h1
  obtain ⟨g, h2⟩ := h2
  obtain ⟨s2, hs, hdec⟩ := split_reconstructs_aux d p f g a s1 s j h1 h2 hne
  refine ⟨s2, hs, hdec, ?_⟩
  subst hs
  simp [List.length_append]
  ring

theorem split_boundary_reconstructs_witness :
    ∃ s2, "    [02]".data = "  ".data ++ s2 ∧ Decodes bufSplitOk none 2 s2 5 ∧
      ("  ".data ++ jumpTok 2).length + s2.length =
        ("    [02]".data).length + (jumpTok 2).length :=
  split_boundary_reconstructs bufSplitOk 2 0 5 "  ".data "    [02]".data
    ⟨10, by decide⟩ ⟨10, by decide⟩ (by decide)

/-- C4 counterexample: the only fixed-length terminating code carrying an
    operand is 0x0A (one 4-byte pointer operand).  A block of N = 2
    literal characters ending in it decodes to one block ending at
    start + N + 1 + 4, but reports ONE pointer candidate (the operand),
    not zero. -/
theorem terminator_scenario_counterexample :
    getText bufTermPtr 0 none 20 =
      some ("  [0A 08 00 C0 00]".data, 0 + 2 + 1 + 4, [(8 : Int)]) ∧
    ¬ ([(8 : Int)].length = 0) := by
  decide

/-- C4 (amended): decode stops exactly when the stop offset is hit or a
    block-terminating code has been read (0x02 ending one byte after its
    code byte, 0x0A five bytes after); the scenario holds verbatim with
    the 0-operand terminator 0x02: a buffer of N = 2 literals then 0x02
    scans to exactly one block, zero pointer candidates, ending at
    start + N + 1 + 0. -/
theorem decode_stop_causes :
    (∀ d stop f i s j, getTextLoop d stop f i = some (s, j) →
        stopHit stop j = true ∨
        (∃ k, Buf.get? d k = some 0x02 ∧ j = k + 1) ∨
        (∃ k, Buf.get? d k = some 0x0A ∧ j = k + 5)) ∧
    getText bufTermPlain 0 none 20 = some ("  [02]".data, 0 + 2 + 1 + 0, []) ∧
    scanRange bufTermPlain 20 1 20 0 = some ([((0 : Int), "  [02]".data)], []) := by
  refine ⟨?_, by decide, by decide⟩
  intro d stop f i s j h
  exact stop_cause d stop f i s j h

theorem decode_stop_causes_witness :
    stopHit none 3 = true ∨
    (∃ k, Buf.get? bufTermPlain k = some 0x02 ∧ 3 = k + 1) ∨
    (∃ k, Buf.get? bufTermPlain k = some 0x0A ∧ 3 = k + 5) :=
  decode_stop_causes.1 bufTermPlain none 20 0 "  [02]".data 3 (by decide)

lemma mapM_some_mem {α β : Type _} (f : α → Option β) :
    ∀ (l : List α) (L : List β), l.mapM f = some L →
      ∀ x ∈ l, ∃ y, f x = some y ∧ y ∈ L := by
  intro l
  induction l with
  | nil => intro L _ x hx; simp at hx
  | cons a t ih =>
    intro L h x hx
    rw [List.mapM_cons] at h
    simp only [Option.bind_eq_bind, Option.bind_eq_some] at h
    obtain ⟨y, hy, ys, hys, h⟩ := h
    obtain rfl : y :: ys = L := by simpa using h
    rcases List.mem_cons.mp hx with rfl | hx
    · exact ⟨y, hy, List.mem_cons_self _ _⟩
    · obtain ⟨z, hz, hzmem⟩ := ih ys hys x hx
      exact ⟨z, hz, List.mem_cons_of_mem _ hzmem⟩

/-- C5: whenever the pattern scan of a decoded token text succeeds, every
    match of each of the eight pointer-bearing shapes contributes its
    operands, translated through FromSNES, to the reported pointer
    candidates; in particular, a variable-count pointer-list code (0x09,
    count byte 2) holding two 4-byte mapped addresses yields exactly two
    candidates, each byte-pair-reversed and bank-offset-adjusted
    (`00 00 C5 00` ↦ 0xC50000 − 0xC00000 = 0x50000). -/
theorem pointer_shapes_reported :
    (∀ (s : List Char) (ps : List Int), scanPointers s = some ps →
        ∀ pn ∈ PATTERNS, ∀ caps ∈ findAll pn.1 pn.2 s,
          ∃ out, scanMatch pn.2 caps = some out ∧ ∀ a ∈ out, a ∈ ps) ∧
    getText bufPtrList 0 none 20 =
      some ("[09 02 00 00 C5 00 10 00 C5 00][02]".data, 11,
        [(0x50000 : Int), 0x50010]) ∧
    scanPointers "[09 02 00 00 C5 00 10 00 C5 00][02]".data =
      some [(0x50000 : Int), 0x50010] := by
  refine ⟨?_, by decide, by decide⟩
  intro s ps hscan pn hpn caps hcaps
  unfold scanPointers at hscan
  simp only [Option.map_eq_some'] at hscan
  obtain ⟨L, hL, rfl⟩ := hscan
  obtain ⟨Li, hLi, hLiMem⟩ :=
    mapM_some_mem (fun q => (findAll q.1 q.2 s).mapM (scanMatch q.2)) PATTERNS L hL pn hpn
  obtain ⟨out, hout, houtMem⟩ :=
    mapM_some_mem (scanMatch pn.2) (findAll pn.1 pn.2 s) Li hLi caps hcaps
  refine ⟨out, hout, fun a ha => ?_⟩
  refine List.mem_flatten.mpr ⟨Li.flatten, List.mem_map.mpr ⟨Li, hLiMem, rfl⟩, ?_⟩
  exact List.mem_flatten.mpr ⟨out, houtMem, ha⟩

theorem pointer_shapes_reported_witness :
    ∃ out, scanMatch 3 capsPtrList = some out ∧
      ∀ a ∈ out, a ∈ [(0x50000 : Int), 0x50010] :=
  pointer_shapes_reported.1 "[09 02 00 00 C5 00 10 00 C5 00][02]".data
    [(0x50000 : Int), 0x50010] (by decide) (pat3, 3) (by simp [PATTERNS])
    capsPtrList (by decide)

/-! ### Claim theorems: C7 (table gaps) and C8 (malformed roots) -/

/-- C7: for the table-driven variable-length codes (0x18, 0x19, 0x1A,
    0x1C, 0x1D, and 0x1F outside its 0xC0 special case), a sub-byte value
    absent from the corresponding nested length table makes the length
    lookup abort the run (an uncaught KeyError, modelled `none`), and a
    block decode positioned at such a code aborts with it rather than
    recovering and continuing. -/
theorem sub_byte_gap_fatal (d : Buf) (i c sub : Nat) (hi : 1 ≤ i)
    (hc : Buf.get? d (i - 1) = some c)
    (hsub : Buf.get? d i = some sub)
    (hmem : c = 0x18 ∨ c = 0x19 ∨ c = 0x1A ∨ c = 0x1C ∨ c = 0x1D ∨ c = 0x1F)
    (hC0 : ¬(c = 0x1F ∧ sub = 0xC0))
    (hgap : subTable c sub = none) :
    getLength d i = none ∧ ∀ f, getTextLoop d none (f + 1) (i - 1) = none := by
  have hlen : getLength d i = none := by
    unfold getLength
    rw [hc, hsub]
    rcases hmem with rfl | rfl | rfl | rfl | rfl | rfl
    · simpa [subTable] using hgap
    · simpa [subTable] using hgap
    · simpa [subTable] using hgap
    · simpa [subTable] using hgap
    · simpa [subTable] using hgap
    · have hsubC0 : sub ≠ 0xC0 := fun hs => hC0 ⟨rfl, hs⟩
      simpa [subTable, hsubC0] using hgap
  refine ⟨hlen, fun f => ?_⟩
  rw [getTextLoop]
  have hsh : stopHit none (i - 1) = false := rfl
  rw [hsh]
  simp only [Bool.false_eq_true, if_false]
  have hstep : step d (i - 1) = none := by
    unfold step
    rw [hc, Option.some_bind]
    have hle : c ≤ 0x30 := by rcases hmem with rfl | rfl | rfl | rfl | rfl | rfl <;> norm_num
    rw [if_pos hle]
    have hcl : codeLen d c (i - 1 + 1) = none := by
      unfold codeLen
      have hcc : CONTROL_CODES c = none := by
        rcases hmem with rfl | rfl | rfl | rfl | rfl | rfl <;> rfl
      rw [hcc]
      have hi1 : i - 1 + 1 = i := by omega
      rw [hi1]
      exact hlen
    rw [hcl, Option.none_bind]
  rw [hstep, Option.none_bind]

theorem sub_byte_gap_fatal_witness :
    getLength bufGap 1 = none ∧ getTextLoop bufGap none 5 0 = none := by
  have h := sub_byte_gap_fatal bufGap 1 0x1C 0x10 (by norm_num) (by decide)
    (by decide) (by norm_num) (by decide) (by decide)
  exact ⟨h.1, by simpa using h.2 4⟩

lemma findClosestAux_none (l : List Int) : ∀ p lower higher,
    (findClosestAux l p lower higher).2 = none ↔
      (higher = none ∧ ∀ k ∈ l, k ≤ p) := by
  induction l with
  | nil => intro p lower higher; simp [findClosestAux]
  | cons k ks ih =>
    intro p lower higher
    rw [findClosestAux]
    by_cases hk : (0 : Int) ≤ p - k
    · rw [if_pos hk, ih]
      have hkp : k ≤ p := by omega
      simp [hkp, List.forall_mem_cons]
    · rw [if_neg hk, ih]
      have hkp : ¬ k ≤ p := by omega
      simp [hkp, List.forall_mem_cons]

lemma mem_sortI (keys : List Int) (k : Int) : k ∈ sortI keys ↔ k ∈ keys :=
  (List.perm_insertionSort _ keys).mem_iff

lemma FindClosest_eq_none_iff (keys : List Int) (p : Int) :
    FindClosest keys p = none ↔ ∀ k ∈ keys, k ≤ p := by
  have hiff : FindClosest keys p = none ↔
      (findClosestAux (sortI keys) p 0 none).2 = none := by
    rw [FindClosest]
    rcases hfc : findClosestAux (sortI keys) p 0 none with ⟨lower, higher⟩
    cases higher <;> simp
  rw [hiff, findClosestAux_none]
  simp only [true_and]
  constructor
  · intro h k hk
    exact h k ((mem_sortI keys k).mpr hk)
  · intro h k hk
    exact h k ((mem_sortI keys k).mp hk)

lemma findClosestAux_all_gt (l : List Int) : ∀ p lower higher,
    l ≠ [] → (∀ k ∈ l, p < k) →
    ∃ h, findClosestAux l p lower higher = (lower, some h) := by
  induction l with
  | nil => simp
  | cons k ks ih =>
    intro p lower higher _ hall
    rw [findClosestAux,
      if_neg (by have := hall k (by simp); omega)]
    by_cases hks : ks = []
    · subst hks
      exact ⟨k, rfl⟩
    · exact ih p lower (some k) hks (fun x hx => hall x (by simp [hx]))

/-- C8 (amended): the "lower" search never fails — it defaults to 0 — so
    a root strictly below every known block start is NOT aborted:
    FindClosest succeeds with lower bound 0 (and the root is then decoded
    from offset 0, see the counterexample).  What aborts the run is a
    root at or above every known block start: no key exceeds it, `higher`
    is never assigned, and the split step dies with an uncaught
    UnboundLocalError — an error that does not carry the offending
    address. -/
theorem find_closest_failure_modes :
    (∀ keys p, FindClosest keys p = none ↔ ∀ k ∈ keys, k ≤ p) ∧
    (∀ d fuel dlg acc p, (∀ k ∈ keysOf dlg, k ≤ p) →
        processPointer d fuel (dlg, acc) p = none) ∧
    (∀ keys p, keys ≠ [] → (∀ k ∈ keys, p < k) →
        ∃ h, FindClosest keys p = some (0, h)) := by
  refine ⟨FindClosest_eq_none_iff, ?_, ?_⟩
  · intro d fuel dlg acc p hall
    unfold processPointer
    rw [show FindClosest (keysOf (dlg, acc).1) p = none from
      (FindClosest_eq_none_iff _ p).mpr hall]
  · intro keys p hne hall
    have hsne : sortI keys ≠ [] := by
      intro h
      have := (List.perm_insertionSort (· ≤ ·) keys).length_eq
      rw [show sortI keys = List.insertionSort (· ≤ ·) keys from rfl] at h
      rw [h] at this
      exact hne (List.eq_nil_of_length_eq_zero this.symm)
    obtain ⟨h, hfc⟩ := findClosestAux_all_gt (sortI keys) p 0 none hsne
      (fun x hx => hall x ((mem_sortI keys x).mp hx))
    exact ⟨h, by rw [FindClosest, hfc]⟩

theorem find_closest_failure_modes_witness :
    FindClosest [(10 : Int), 20] 30 = none ∧
    processPointer bufRoots 60 ([((10 : Int), "[02]".data), (20, "[02]".data)], []) 30 = none ∧
    ∃ h, FindClosest [(10 : Int), 20] 5 = some (0, h) :=
  ⟨(find_closest_failure_modes.1 [10, 20] 30).mpr (by decide),
   find_closest_failure_modes.2.1 bufRoots 60
     [((10 : Int), "[02]".data), (20, "[02]".data)] [] 30 (by decide),
   find_closest_failure_modes.2.2 [10, 20] 5 (by decide) (by decide)⟩

/-- C8 counterexample: with a single known block at 100 and the external
    root 50 strictly below it, the run does not abort and does not report
    anything: the closest-key search falls back to lower bound 0 and the
    root is silently processed with a decode from offset 0 — a wrong
    lower bound that is not the start of any known block. -/
theorem root_below_first_block_counterexample :
    processPointer bufRoots 60 ([((100 : Int), "[02]".data)], []) 50 =
      some ([((100 : Int), "[02]".data), (0, "[02][0A 32 00 C0 00]".data),
             (50, "[02]".data)], []) := by
  decide

/-! ### Claim theorems: C6 (output chunk bucketing) -/

lemma sortI_sorted (l : List Int) : List.Sorted (· ≤ ·) (sortI l) :=
  List.sorted_insertionSort _ l

lemma sortI_perm (l : List Int) : (sortI l).Perm l :=
  List.perm_insertionSort _ l

lemma lookup_enumFrom_map (g : Nat → List Char) :
    ∀ (l : List Int) (n k : Nat) (hk : k < l.length), l.Nodup →
      (((l.enumFrom n).map (fun kb => (kb.2, g kb.1))).lookup (l.get ⟨k, hk⟩)) =
        some (g (n + k)) := by
  intro l
  induction l with
  | nil => intro n k hk _; simp at hk
  | cons a t ih =>
    intro n k hk hnd
    cases k with
    | zero => simp [List.enumFrom, List.lookup]
    | succ k =>
      have hnd' := List.nodup_cons.mp hnd
      have hkt : k < t.length := by simpa using hk
      have hget : (a :: t).get ⟨k + 1, hk⟩ = t.get ⟨k, hkt⟩ := rfl
      rw [hget]
      have hne : (t.get ⟨k, hkt⟩ == a) = false := by
        simp only [beq_eq_false_iff_ne]
        intro h
        exact hnd'.1 (h ▸ t.get_mem k hkt)
      simp only [List.enumFrom, List.map_cons, List.lookup, hne]
      rw [ih (n + 1) k hkt hnd'.2]
      have harith : n + 1 + k = n + (k + 1) := by omega
      rw [harith]

lemma indexOf_mono_sorted : ∀ (l : List Int), List.Sorted (· ≤ ·) l → l.Nodup →
    ∀ a b, a ∈ l → b ∈ l → a ≤ b → l.indexOf a ≤ l.indexOf b := by
  intro l
  induction l with
  | nil => intro _ _ a b ha; simp at ha
  | cons x t ih =>
    intro hsort hnd a b ha hb hab
    by_cases hax : a = x
    · subst hax
      rw [List.indexOf_cons_self]
      exact Nat.zero_le _
    · have hat : a ∈ t := by
        rcases List.mem_cons.mp ha with h | h
        · exact absurd h hax
        · exact h
      have hxa : x ≤ a := (List.sorted_cons.mp hsort).1 a hat
      have hbx : b ≠ x := by
        intro hbx
        subst hbx
        exact hax (le_antisymm (le_trans hab (le_refl b)) hxa)
      have hbt : b ∈ t := by
        rcases List.mem_cons.mp hb with h | h
        · exact absurd h hbx
        · exact h
      rw [List.indexOf_cons_ne _ (fun h => hax h.symm),
        List.indexOf_cons_ne _ (fun h => hbx h.symm)]
      have := ih (List.sorted_cons.mp hsort).2 (List.nodup_cons.mp hnd).2
        a b hat hbt hab
      omega

/-- C6: the output assignment maps the k-th block address in sorted order
    to chunk k / 100 (each chunk holds 100 consecutive sorted addresses),
    it is total on the block addresses, and it is monotone: if address A
    sorts before address B, A's chunk id is at most B's. -/
theorem chunk_bucketing (keys : List Int) (hnd : keys.Nodup) :
    (∀ k (hk : k < (sortI keys).length),
        (dataFilesOf keys).lookup ((sortI keys).get ⟨k, hk⟩) =
          some (dataName (k / 100))) ∧
    (∀ a ∈ keys, (dataFilesOf keys).lookup a = some (dataName (chunkIdOf keys a))) ∧
    (∀ a b, a ∈ keys → b ∈ keys → a ≤ b → chunkIdOf keys a ≤ chunkIdOf keys b) := by
  have hsnd : (sortI keys).Nodup := (sortI_perm keys).nodup_iff.mpr hnd
  have hfirst : ∀ k (hk : k < (sortI keys).length),
      (dataFilesOf keys).lookup ((sortI keys).get ⟨k, hk⟩) =
        some (dataName (k / 100)) := by
    intro k hk
    have := lookup_enumFrom_map (fun j => dataName (j / 100)) (sortI keys) 0 k hk hsnd
    simpa [dataFilesOf, List.enum] using this
  refine ⟨hfirst, ?_, ?_⟩
  · intro a ha
    have hmem : a ∈ sortI keys := (mem_sortI keys a).mpr ha
    have hlt : (sortI keys).indexOf a < (sortI keys).length :=
      List.indexOf_lt_length.mpr hmem
    have := hfirst ((sortI keys).indexOf a) hlt
    rw [List.indexOf_get] at this
    exact this
  · intro a b ha hb hab
    have hmono := indexOf_mono_sorted (sortI keys) (sortI_sorted keys) hsnd a b
      ((mem_sortI keys a).mpr ha) ((mem_sortI keys b).mpr hb) hab
    exact Nat.div_le_div_right hmono

theorem chunk_bucketing_witness :
    (dataFilesOf [(30 : Int), 10, 20]).lookup 10 =
      some (dataName (chunkIdOf [(30 : Int), 10, 20] 10)) ∧
    chunkIdOf [(30 : Int), 10, 20] 10 ≤ chunkIdOf [(30 : Int), 10, 20] 30 := by
  have h := chunk_bucketing [30, 10, 20] (by decide)
  exact ⟨h.2.1 10 (by decide), h.2.2 10 30 (by decide) (by decide) (by decide)⟩

/-! ### Claim theorems: C1 (discovery worklist) -/

lemma keysOf_insertA (l : List (Int × List Char)) (k : Int) (v : List Char) :
    keysOf (insertA l k v) = keysOf l ∨ keysOf (insertA l k v) = keysOf l ++ [k] := by
  unfold insertA
  by_cases hany : (l.any (fun p => p.1 = k)) = true
  · left
    rw [if_pos hany]
    unfold keysOf
    rw [List.map_map]
    apply List.map_congr_left
    intro p hp
    by_cases hpk : p.1 = k
    · simp [hpk]
    · simp [hpk]
  · right
    rw [if_neg hany]
    simp [keysOf]

lemma self_mem_keysOf_insertA (l : List (Int × List Char)) (k : Int) (v : List Char) :
    k ∈ keysOf (insertA l k v) := by
  unfold insertA
  by_cases hany : (l.any (fun p => p.1 = k)) = true
  · rw [if_pos hany]
    obtain ⟨p, hp, hpk⟩ := List.any_eq_true.mp hany
    have hpk' : p.1 = k := of_decide_eq_true hpk
    unfold keysOf
    rw [List.map_map]
    refine List.mem_map.mpr ⟨p, hp, ?_⟩
    simp [hpk']
  · rw [if_neg hany]
    simp [keysOf]

lemma mem_keysOf_insertA (l : List (Int × List Char)) (k x : Int) (v : List Char)
    (hx : x ∈ keysOf l) : x ∈ keysOf (insertA l k v) := by
  rcases keysOf_insertA l k v with h | h
  · rw [h]; exact hx
  · rw [h]; exact List.mem_append_left _ hx

lemma processPointer_keys (d : Buf) (fuel : Nat)
    (st st' : List (Int × List Char) × List Int) (p : Int)
    (h : processPointer d fuel st p = some st') :
    p ∈ keysOf st'.1 ∧ ∀ x ∈ keysOf st.1, x ∈ keysOf st'.1 := by
  unfold processPointer at h
  cases hfc : FindClosest (keysOf st.1) p with
  | none => simp only [hfc] at h; exact Option.noConfusion h
  | some lh =>
    obtain ⟨lower, hi⟩ := lh
    simp only [hfc] at h
    by_cases h0 : (0 : Int) ≤ lower ∧ (0 : Int) ≤ p
    · rw [if_pos h0] at h
      cases hg1 : getText d lower.toNat (some p) fuel with
      | none => simp only [hg1] at h; exact Option.noConfusion h
      | some r1 =>
        obtain ⟨s, j1, ps1⟩ := r1
        simp only [hg1] at h
        cases hg2 : getText d p.toNat none fuel with
        | none => simp only [hg2] at h; exact Option.noConfusion h
        | some r2 =>
          obtain ⟨s2, j2, ps2⟩ := r2
          simp only [hg2] at h
          simp only [Option.some.injEq] at h
          subst h
          constructor
          · exact self_mem_keysOf_insertA _ p _
          · intro x hx
            exact mem_keysOf_insertA _ p x _ (mem_keysOf_insertA _ lower x _ hx)
    · rw [if_neg h0] at h
      exact Option.noConfusion h

lemma foldlM_processPointer_keys (d : Buf) (fuel : Nat) :
    ∀ (ps : List Int) (st res : List (Int × List Char) × List Int),
      List.foldlM (processPointer d fuel) st ps = some res →
      (∀ p ∈ ps, p ∈ keysOf res.1) ∧ (∀ x ∈ keysOf st.1, x ∈ keysOf res.1) := by
  intro ps
  induction ps with
  | nil =>
    intro st res h
    obtain rfl : st = res := by simpa [List.foldlM] using h
    exact ⟨by simp, fun x hx => hx⟩
  | cons p ps ih =>
    intro st res h
    rw [List.foldlM_cons] at h
    simp only [Option.bind_eq_bind, Option.bind_eq_some] at h
    obtain ⟨st1, hp, hrest⟩ := h
    have hk := processPointer_keys d fuel st st1 p hp
    have hrec := ih st1 res hrest
    refine ⟨?_, fun x hx => hrec.2 x (hk.2 x hx)⟩
    intro q hq
    rcases List.mem_cons.mp hq with rfl | hq
    · exact hrec.2 q hk.1
    · exact hrec.1 q hq

/-- C1 (amended): every pointer in the snapshot the split loop processes
    (`pointersToProcess`, taken once before the loop) resolves to a key
    of the final block map, and existing blocks persist; but the pointer
    candidates reported by the split-step decodes themselves are only
    accumulated into the returned list — there is no fixpoint loop, so
    they need not resolve to any block (see the counterexample). -/
theorem processed_pointers_become_blocks (d : Buf) (fuel : Nat)
    (dlg dlg2 : List (Int × List Char)) (raw leftover : List Int)
    (h : checkPointers d fuel dlg raw = some (dlg2, leftover)) :
    (∀ p ∈ pointersToProcess raw (keysOf dlg), p ∈ keysOf dlg2) ∧
    (∀ k ∈ keysOf dlg, k ∈ keysOf dlg2) := by
  unfold checkPointers at h
  exact foldlM_processPointer_keys d fuel (pointersToProcess raw (keysOf dlg))
    (dlg, []) (dlg2, leftover) h

theorem processed_pointers_become_blocks_witness :
    (∀ p ∈ pointersToProcess [(8 : Int)] (keysOf dlgScan), p ∈ keysOf dlgFinal) ∧
    (∀ k ∈ keysOf dlgScan, k ∈ keysOf dlgFinal) :=
  processed_pointers_become_blocks bufDiscovery 50 dlgScan dlgFinal [8] [8, 40]
    (by decide)

/-- C1 counterexample: a complete loadDialogue run in which the
    split-step decode of the newly discovered block at 8 reports pointer
    candidate 40; discovery nevertheless terminates, leaving 40 in the
    unprocessed candidate list with no block at 40 — a pointer value
    encountered in a decoded block that resolves to no block start. -/
theorem pointer_fixpoint_counterexample :
    loadDialogue bufDiscovery [(0, 1), (20, 21)] [] 50 =
      some (dlgFinal, [8, 40], dataFilesFinal) ∧
    (40 : Int) ∈ [(8 : Int), 40] ∧ (40 : Int) ∉ keysOf dlgFinal := by
  decide

/-! ### Claim theorems: C9 (compressed text) -/

lemma readCString_spec (d : Buf) : ∀ (cs : List Nat) (q f : Nat),
    (∀ k (hk : k < cs.length), Buf.get? d (q + k) = some (cs.get ⟨k, hk⟩)) →
    (∀ c ∈ cs, c ≠ 0) →
    Buf.get? d (q + cs.length) = some 0 →
    cs.length < f →
    readCString d f q = some cs := by
  intro cs
  induction cs with
  | nil =>
    intro q f _ _ h0 hf
    cases f with
    | zero => omega
    | succ f =>
      rw [readCString]
      simp only [List.length_nil, Nat.add_zero] at h0
      rw [h0]
  | cons c cs ih =>
    intro q f hk hne h0 hf
    cases f with
    | zero => omega
    | succ f =>
      rw [readCString]
      have hq : Buf.get? d q = some c := by
        have := hk 0 (by simp)
        simpa using this
      rw [hq]
      cases c with
      | zero => exact absurd rfl (hne 0 (by simp))
      | succ c' =>
        have hrest : readCString d f (q + 1) = some cs := by
          apply ih (q + 1) f
          · intro k hkk
            have h1 := hk (k + 1) (by simpa using Nat.succ_lt_succ hkk)
            have e : q + (k + 1) = q + 1 + k := by omega
            rw [e] at h1
            exact h1
          · exact fun x hx => hne x (List.mem_cons_of_mem _ hx)
          · have e : q + 1 + cs.length = q + (cs.length + 1) := by omega
            rw [e]
            simpa using h0
          · simp at hf
            omega
        show (readCString d f (q + 1)).map (fun l => (c' + 1) :: l) =
          some ((c' + 1) :: cs)
        rw [hrest]
        rfl

lemma mapM_shift (cs : List Nat) (h : ∀ c ∈ cs, 0x30 ≤ c) :
    cs.mapM (fun c => if 0x30 ≤ c then some (Char.ofNat (c - 0x30)) else none) =
      some (cs.map (fun c => Char.ofNat (c - 0x30))) := by
  induction cs with
  | nil => rfl
  | cons c cs ih =>
    rw [List.mapM_cons, if_pos (h c (by simp)),
      ih (fun x hx => h x (List.mem_cons_of_mem _ hx))]
    rfl

/-- C9: replaceCompressedText selects the 4-byte entry at
    COMPRESSED_TEXT_PTRS + ((bank − 0x15)·0x100 + index)·4, byte-reverses
    it and subtracts the 0xC00000 bank base to get a buffer offset, and
    inlines the null-terminated run found there with every byte shifted
    down by 0x30; and the substitution pass scans only the original text,
    so expansion is non-recursive: an expansion that itself yields the
    text of a compressed-text code leaves it unexpanded. -/
theorem compressed_text_expansion :
    (∀ (d : Buf) (g0 g1 : List Char) (b idx b0 b1 b2 b3 : Nat)
        (cs : List Nat) (fuel : Nat),
        parseHex g0 = some b → parseHex g1 = some idx →
        sliceB d (COMPRESSED_TEXT_PTRS + ((b - 0x15) * 0x100 + idx) * 4) 4 =
          [b0, b1, b2, b3] →
        0xC00000 ≤ value4 b0 b1 b2 b3 →
        (∀ k (hk : k < cs.length),
            Buf.get? d (value4 b0 b1 b2 b3 - 0xC00000 + k) = some (cs.get ⟨k, hk⟩)) →
        (∀ c ∈ cs, c ≠ 0 ∧ 0x30 ≤ c) →
        Buf.get? d (value4 b0 b1 b2 b3 - 0xC00000 + cs.length) = some 0 →
        cs.length < fuel →
        replaceCompressedText d g0 g1 fuel =
          some (cs.map (fun c => Char.ofNat (c - 0x30)))) ∧
    substCompressed bufCompressed 20 20 "[15 00]".data = some ("[15 00]".data) := by
  constructor
  · intro d g0 g1 b idx b0 b1 b2 b3 cs fuel hg0 hg1 hslice hge hbytes hcs h0 hf
    unfold replaceCompressedText
    rw [hg0, Option.some_bind, hg1, Option.some_bind]
    have hrev : (sliceB d (COMPRESSED_TEXT_PTRS + ((b - 0x15) * 0x100 + idx) * 4) 4).reverse =
        [b3, b2, b1, b0] := by
      rw [hslice]
      rfl
    rw [hrev]
    have hv : List.foldl (fun x y => (x <<< 8) ||| y) 0 [b3, b2, b1, b0] =
        value4 b0 b1 b2 b3 := by
      simp [value4, List.foldl, Nat.zero_shiftLeft, Nat.zero_or]
    show (if 0xC00000 ≤ List.foldl (fun x y => (x <<< 8) ||| y) 0 [b3, b2, b1, b0] then
        (readCString d fuel
            (List.foldl (fun x y => (x <<< 8) ||| y) 0 [b3, b2, b1, b0] - 0xC00000)).bind
          (fun ds => ds.mapM (fun c => if 0x30 ≤ c then some (Char.ofNat (c - 0x30)) else none))
      else none) = some (cs.map (fun c => Char.ofNat (c - 0x30)))
    rw [hv, if_pos hge,
      readCString_spec d cs (value4 b0 b1 b2 b3 - 0xC00000) fuel hbytes
        (fun c hc => (hcs c hc).1) h0 hf,
      Option.some_bind]
    exact mapM_shift cs (fun c hc => (hcs c hc).2)
  · decide

theorem compressed_text_expansion_witness :
    replaceCompressedText bufCompressed "15".data "00".data 20 =
      some (([0x8B, 0x61, 0x65, 0x50, 0x60, 0x60, 0x8D] : List Nat).map
        (fun c => Char.ofNat (c - 0x30))) :=
  compressed_text_expansion.1 bufCompressed "15".data "00".data 0x15 0
    0x10 0x00 0xC0 0x00 [0x8B, 0x61, 0x65, 0x50, 0x60, 0x60, 0x8D] 20
    (by decide) (by decide) (by decide) (by decide) (by decide) (by decide)
    (by decide) (by decide)

end CCSW
